import Mathlib

/-!
Shallow embedding of the Minesweeper grid engine (src/models.py) and proofs
about it.  The integer cell encoding of the source is kept as-is:
`-1` hidden, `-2` flagged, `-3` flagged-but-not-a-bomb (shown at game end),
`0..8` revealed neighbour count, `9` revealed bomb, `10` the detonated bomb.
The numpy array `Grid.grid` is embedded as a total function `Cell → Int`
(out-of-bounds points are phantom values never consulted by the in-bounds
operations), mine placement is embedded with the stream of random draws as an
explicit parameter, and the recursive flood fill `discover_cell` is embedded
fuel-indexed (the fuel bounds recursion depth; stabilisation is proved below).
-/

namespace Minesweeper

/-- Cell coordinates `(row, col)`, as used throughout src/models.py. -/
abbrev Cell := Nat × Nat

/-- State of the `Grid` class (src/models.py, `Grid.__init__`): dimensions,
requested bomb count `bombs_nb`, the bomb coordinate list `bombs`, the cell
array `grid` and the `game_ended` flag. -/
@[ext]
structure Grid where
  grid_height : Nat
  grid_width : Nat
  bombs_nb : Nat
  bombs : List Cell
  grid : Cell → Int
  game_ended : Bool

/-- The eight candidate neighbour coordinates of `Grid.get_neighbours`,
in source order, computed in `Int` exactly as the Python tuples are. -/
def neighbour_candidates (c : Cell) : List (Int × Int) :=
  [((c.1 : Int) - 1, (c.2 : Int) - 1),
   ((c.1 : Int) - 1, (c.2 : Int)),
   ((c.1 : Int) - 1, (c.2 : Int) + 1),
   ((c.1 : Int), (c.2 : Int) + 1),
   ((c.1 : Int) + 1, (c.2 : Int) + 1),
   ((c.1 : Int) + 1, (c.2 : Int)),
   ((c.1 : Int) + 1, (c.2 : Int) - 1),
   ((c.1 : Int), (c.2 : Int) - 1)]

/-- In-grid neighbours of a cell (`Grid.get_neighbours`, lines 50-70): the
candidates filtered by `0 <= row < grid_height and 0 <= col < grid_width`,
mapped back to `Nat` coordinates.  Depends only on the dimensions. -/
def neighbours (H W : Nat) (c : Cell) : List Cell :=
  ((neighbour_candidates c).filter
    (fun p => decide (0 ≤ p.1 ∧ p.1 < (H : Int) ∧ 0 ≤ p.2 ∧ p.2 < (W : Int)))).map
    (fun p => (p.1.toNat, p.2.toNat))

/-- Value computed by `Grid.check_for_bombs` (lines 72-85): `9` if the cell is
a bomb, otherwise the number of neighbouring bombs.  Depends only on the
dimensions and the (immutable) bomb list, not on the mutable cell array. -/
def bomb_value (H W : Nat) (bombs : List Cell) (c : Cell) : Int :=
  if c ∈ bombs then 9
  else ((neighbours H W c).countP (fun nb => decide (nb ∈ bombs)) : Nat)

/-- `Grid.get_neighbours` on a grid state. -/
def get_neighbours (g : Grid) (c : Cell) : List Cell :=
  neighbours g.grid_height g.grid_width c

/-- `Grid.check_for_bombs` on a grid state. -/
def check_for_bombs (g : Grid) (c : Cell) : Int :=
  bomb_value g.grid_height g.grid_width g.bombs c

/-- The single-cell assignment `self.grid[cell] = v`. -/
def setCell (g : Grid) (c : Cell) (v : Int) : Grid :=
  { g with grid := fun x => if x = c then v else g.grid x }

/-- The loss-path sweep `Grid.discover_all_non_flagged_bombs` (lines 106-117):
the loop walks every in-bounds cell once and rewrites it from its own current
value only, so it is embedded as the equivalent pointwise update: a bomb cell
that is not flagged becomes `9`; a flagged cell that is not a bomb becomes
`-3`; everything else is untouched. -/
def discover_all_non_flagged_bombs (g : Grid) : Grid :=
  { g with grid := fun x =>
      if x.1 < g.grid_height ∧ x.2 < g.grid_width then
        if x ∈ g.bombs then (if g.grid x = -2 then g.grid x else 9)
        else (if g.grid x = -2 then -3 else g.grid x)
      else g.grid x }

/-- The recursive reveal `Grid.discover_cell` (lines 87-104), fuel-indexed.
A flagged cell is returned unchanged; otherwise the cell is set to its
`check_for_bombs` value `n`; if `n = 9` the loss sweep runs, the cell is set
to `10` and `game_ended` is set; if `n = 0` the neighbours that are still
`-1` (the list is built once, as in the source) are discovered recursively.
The fuel only bounds the recursion depth; `discover_cell_fuel_congr` below
shows any fuel of at least `2*height*width + 2` computes the same result. -/
def discover_cell : Nat → Grid → Cell → Grid
  | 0, g, _ => g
  | fuel + 1, g, c =>
    if g.grid c = -2 then g
    else
      let n := check_for_bombs g c
      let g1 := setCell g c n
      let g2 := if n = 9 then
          { setCell (discover_all_non_flagged_bombs g1) c 10 with game_ended := true }
        else g1
      if n = 0 then
        ((get_neighbours g2 c).filter (fun nb => decide (g2.grid nb = -1))).foldl
          (fun a nb => discover_cell fuel a nb) g2
      else g2

/-- Row-major list of all in-bounds cells, the domain walked by the grid-wide
loops of the source. -/
def allCells (H W : Nat) : List Cell :=
  List.range H ×ˢ List.range W

/-- Win test `Grid.has_discovered_all_non_bombs_cells` (lines 146-152): the
count of cells with a negative value (`np.count_nonzero(self.grid < 0)`)
equals `bombs_nb`. -/
def has_discovered_all_non_bombs_cells (g : Grid) : Bool :=
  decide (((allCells g.grid_height g.grid_width).countP
    (fun x => decide (g.grid x < 0))) = g.bombs_nb)

/-- Win-path sweep `Grid.flag_non_flagged_bombs` (lines 124-130): every bomb
whose cell is still `-1` is set to `-2`.  Each loop iteration rewrites one
bomb cell from its own current value only, so the pointwise update is
equivalent (a repeated bomb entry finds the cell already `-2` and skips). -/
def flag_non_flagged_bombs (g : Grid) : Grid :=
  { g with grid := fun x =>
      if x ∈ g.bombs ∧ g.grid x = -1 then -2 else g.grid x }

/-- `Grid.flag_cell` (lines 132-144): toggles `-1 ↔ -2` returning `true`,
otherwise leaves the grid alone and returns `false`. -/
def flag_cell (g : Grid) (c : Cell) : Grid × Bool :=
  if g.grid c = -1 then (setCell g c (-2), true)
  else if g.grid c = -2 then (setCell g c (-1), true)
  else (g, false)

/-- Fuel with which `reveal` runs `discover_cell`; proved sufficient for the
flood fill to reach its fixpoint (`discover_cell_fuel_congr`). -/
def revealFuel (g : Grid) : Nat :=
  2 * g.grid_height * g.grid_width + 2

/-- The reveal operation as exposed to the player: the left-click handler of
`GameGUI.display` (src/models.py lines 392-404).  Mouse input is ignored once
`game_ended` holds; otherwise `discover_cell` runs and then, unconditionally,
the win test: if it holds, `flag_non_flagged_bombs` runs and `game_ended` is
set. -/
def reveal (g : Grid) (c : Cell) : Grid :=
  if g.game_ended then g
  else
    let g1 := discover_cell (revealFuel g) g c
    if has_discovered_all_non_bombs_cells g1 then
      { flag_non_flagged_bombs g1 with game_ended := true }
    else g1

/-- The flag toggle as exposed to the player: the right-click handler of
`GameGUI.display` (lines 392, 405-406), a no-op once `game_ended` holds. -/
def toggle_flag (g : Grid) (c : Cell) : Grid :=
  if g.game_ended then g else (flag_cell g c).1

/-- Round outcome. -/
inductive Outcome where
  | InProgress : Outcome
  | Won : Outcome
  | Lost : Outcome
deriving DecidableEq, Repr

/-- Derived outcome, exactly as the code derives it for display
(`GameGUI.draw_menu_bar`, lines 338-342): in progress while `game_ended` is
unset; once set, won if `has_discovered_all_non_bombs_cells` holds, lost
otherwise. -/
def outcome (g : Grid) : Outcome :=
  if g.game_ended then
    (if has_discovered_all_non_bombs_cells g then Outcome.Won else Outcome.Lost)
  else Outcome.InProgress

/-- One iteration of the `Grid.place_bombs` loop (lines 39-48) on the next
random draw `d`: while fewer than `m` bombs are placed, a draw not already
present is appended. -/
def place_bombs_step (m : Nat) (acc : List Cell) (d : Cell) : List Cell :=
  if acc.length < m then (if d ∈ acc then acc else acc ++ [d]) else acc

/-- `Grid.place_bombs` with the stream of `random.randrange` draws made
explicit as a list: the loop consumes draws until `m` distinct cells are
collected.  A run that terminates corresponds to a draw list on which the
result reaches length `m`. -/
def place_bombs (m : Nat) (draws : List Cell) : List Cell :=
  draws.foldl (place_bombs_step m) []

/-- The successfully-constructed grid of `Grid.__init__` (lines 10-17), with
the bomb list produced by `place_bombs` passed in: all cells `-1`
(`np.full([h, w], -1)`), `game_ended` false. -/
def Grid.init (H W m : Nat) (bombs : List Cell) : Grid :=
  { grid_height := H
    grid_width := W
    bombs_nb := m
    bombs := bombs
    grid := fun _ => -1
    game_ended := false }

/-- The guarded constructor (lines 9-19): the configuration is rejected
(source: the degenerate `self.grid = []` branch) exactly when
`bombs_nb > grid_height * grid_width`. -/
def Grid.new (H W m : Nat) (bombs : List Cell) : Option Grid :=
  if m > H * W then none else some (Grid.init H W m bombs)

/-- States reachable through the public interface: a successfully constructed
grid (with a bomb list satisfying the `place_bombs` postcondition: `m`
distinct in-bounds cells), followed by any sequence of player reveals and
flag toggles at in-bounds cells (the GUI only produces in-bounds clicks). -/
inductive Reachable : Grid → Prop where
  | base : ∀ (H W m : Nat) (bombs : List Cell), m ≤ H * W →
      bombs.length = m → bombs.Nodup →
      (∀ b ∈ bombs, b.1 < H ∧ b.2 < W) → Reachable (Grid.init H W m bombs)
  | rev : ∀ (g : Grid) (c : Cell), Reachable g →
      c.1 < g.grid_height → c.2 < g.grid_width → Reachable (reveal g c)
  | flag : ∀ (g : Grid) (c : Cell), Reachable g →
      c.1 < g.grid_height → c.2 < g.grid_width → Reachable (toggle_flag g c)

/-- Number of in-bounds cells currently hidden (`-1`). -/
def hiddenCount (g : Grid) : Nat :=
  (allCells g.grid_height g.grid_width).countP (fun x => decide (g.grid x = -1))

/-- Number of in-bounds cells currently hidden or flagged. -/
def hfCount (g : Grid) : Nat :=
  (allCells g.grid_height g.grid_width).countP
    (fun x => decide (g.grid x = -1 ∨ g.grid x = -2))

/-- Termination measure for the flood fill: twice the number of hidden
in-bounds cells, plus one when the call target is not itself a hidden
in-bounds cell (such a call reveals nothing before recursing). -/
def mu (g : Grid) (c : Cell) : Nat :=
  2 * hiddenCount g +
    (if g.grid c = -1 ∧ c.1 < g.grid_height ∧ c.2 < g.grid_width then 0 else 1)

/-- Facts preserved by every `discover_cell` call: dimensions, the bomb list
and bomb count never change; `game_ended` is never cleared; a cell hidden in
the result was hidden in the input (revealing is one-way). -/
def Pbasic (a b : Grid) : Prop :=
  b.grid_height = a.grid_height ∧ b.grid_width = a.grid_width ∧
  b.bombs = a.bombs ∧ b.bombs_nb = a.bombs_nb ∧
  (a.game_ended = true → b.game_ended = true) ∧
  (∀ x, b.grid x = -1 → a.grid x = -1)

/-- Structural well-formedness of the bomb list, established at construction
and never changed afterwards. -/
def WellFormed (g : Grid) : Prop :=
  g.bombs.Nodup ∧ g.bombs.length = g.bombs_nb ∧
  ∀ b ∈ g.bombs, b.1 < g.grid_height ∧ b.2 < g.grid_width

/-- While the game is running, every in-bounds negative cell is `-1` or `-2`
(no `-3` appears before game end), and every bomb cell is still hidden or
flagged. -/
def GoodValues (g : Grid) : Prop :=
  g.game_ended = false →
    (∀ x : Cell, x.1 < g.grid_height → x.2 < g.grid_width → g.grid x < 0 →
      g.grid x = -1 ∨ g.grid x = -2) ∧
    ∀ b ∈ g.bombs, g.grid b = -1 ∨ g.grid b = -2

/-! ### Scenario states used by concrete claim instances -/

/-- A 2x2 round with bombs at `(0,0)` and `(0,1)`: flag the bomb `(0,1)`,
reveal `(1,0)` (value 2), then reveal the bomb `(0,0)`. -/
def lossWonGrid : Grid :=
  reveal (reveal (toggle_flag (Grid.init 2 2 2 [(0,0), (0,1)]) (0,1)) (1,0)) (0,0)

/-- A 2x2 round with one bomb at `(0,0)` where the non-bomb `(1,1)` has been
flagged. -/
def lossFlagGrid : Grid :=
  toggle_flag (Grid.init 2 2 1 [(0,0)]) (1,1)

/-- The degenerate 1x1 all-mine round with its only cell flagged. -/
def allMineFlagged : Grid :=
  toggle_flag (Grid.init 1 1 1 [(0,0)]) (0,0)

/-- A 1x2 round with one bomb at `(0,0)`, flagged; `(0,1)` is still hidden. -/
def flaggedMidGame : Grid :=
  toggle_flag (Grid.init 1 2 1 [(0,0)]) (0,0)

/-! ### Basic facts about the building blocks -/

theorem setCell_grid (g : Grid) (c : Cell) (v : Int) (x : Cell) :
    (setCell g c v).grid x = if x = c then v else g.grid x := rfl

theorem setCell_eq_self (g : Grid) (c : Cell) (v : Int) (h : g.grid c = v) :
    setCell g c v = g := by
  apply Grid.ext <;> try rfl
  funext x
  by_cases hx : x = c
  · subst hx; simpa [setCell_grid] using h.symm
  · simp [setCell_grid, hx]

theorem mem_neighbours_bounds {H W : Nat} {c nb : Cell}
    (h : nb ∈ neighbours H W c) : nb.1 < H ∧ nb.2 < W := by
  unfold neighbours at h
  rcases List.mem_map.1 h with ⟨p, hp, hpe⟩
  rcases List.mem_filter.1 hp with ⟨-, hdec⟩
  have hprop := of_decide_eq_true hdec
  subst hpe
  constructor <;> [skip; skip] <;> simp only [] <;> omega

theorem length_neighbours_le (H W : Nat) (c : Cell) :
    (neighbours H W c).length ≤ 8 := by
  unfold neighbours
  rw [List.length_map]
  exact le_trans (List.length_filter_le _ _) (by simp [neighbour_candidates])

theorem bomb_value_nonneg (H W : Nat) (B : List Cell) (c : Cell) :
    0 ≤ bomb_value H W B c := by
  unfold bomb_value
  by_cases hc : c ∈ B
  · simp [hc]
  · simp [hc]

theorem bomb_value_of_mem {H W : Nat} {B : List Cell} {c : Cell} (hc : c ∈ B) :
    bomb_value H W B c = 9 := by
  simp [bomb_value, hc]

theorem bomb_value_ne_nine {H W : Nat} {B : List Cell} {c : Cell} (hc : c ∉ B) :
    bomb_value H W B c ≠ 9 := by
  unfold bomb_value
  simp only [hc, if_false]
  intro h
  have hle : ((neighbours H W c).countP (fun nb => decide (nb ∈ B))) ≤ 8 :=
    le_trans (List.countP_le_length _) (length_neighbours_le H W c)
  have : ((neighbours H W c).countP (fun nb => decide (nb ∈ B)) : Int) = 9 := h
  omega

theorem bomb_value_zero {H W : Nat} {B : List Cell} {c : Cell}
    (h : bomb_value H W B c = 0) :
    c ∉ B ∧ ∀ nb ∈ neighbours H W c, nb ∉ B := by
  unfold bomb_value at h
  by_cases hc : c ∈ B
  · simp [hc] at h
  · refine ⟨hc, ?_⟩
    simp only [hc, if_false] at h
    have hcnt : (neighbours H W c).countP (fun nb => decide (nb ∈ B)) = 0 := by
      exact_mod_cast h
    intro nb hnb
    have := List.countP_eq_zero.1 hcnt nb hnb
    simpa using this

theorem mem_allCells {H W : Nat} {x : Cell} :
    x ∈ allCells H W ↔ x.1 < H ∧ x.2 < W := by
  unfold allCells
  constructor
  · intro h
    have := List.mem_product.1 h
    simpa [List.mem_range] using this
  · intro h
    exact List.mem_product.2 (by simpa [List.mem_range] using h)

theorem nodup_allCells (H W : Nat) : (allCells H W).Nodup :=
  (List.nodup_range H).product (List.nodup_range W)

theorem length_allCells (H W : Nat) : (allCells H W).length = H * W := by
  unfold allCells
  rw [List.length_product, List.length_range, List.length_range]

/-! ### Counting helpers -/

theorem countP_lt_of_flip {α : Type} {p q : α → Bool} :
    ∀ {l : List α}, (∀ x ∈ l, p x = true → q x = true) →
    ∀ {a : α}, a ∈ l → q a = true → p a = false →
    l.countP p < l.countP q := by
  intro l
  induction l with
  | nil => intro _ a ha; exact absurd ha (List.not_mem_nil a)
  | cons b rest ih =>
    intro himp a ha hqa hpa
    have hmono : rest.countP p ≤ rest.countP q :=
      List.countP_mono_left (fun x hx => himp x (List.mem_cons_of_mem _ hx))
    rcases List.mem_cons.1 ha with hab | har
    · subst hab
      have h1 : List.countP p (a :: rest) = List.countP p rest :=
        List.countP_cons_of_neg p rest (by simp [hpa])
      have h2 : List.countP q (a :: rest) = List.countP q rest + 1 :=
        List.countP_cons_of_pos q rest hqa
      omega
    · have hlt := ih (fun x hx => himp x (List.mem_cons_of_mem _ hx)) har hqa hpa
      have h1 := List.countP_cons p b rest
      have h2 := List.countP_cons q b rest
      have h3 : (if p b then 1 else 0) ≤ (if q b then 1 else 0) := by
        by_cases hb : p b = true
        · simp [hb, himp b (List.mem_cons_self _ _) hb]
        · simp only [Bool.not_eq_true] at hb
          simp [hb]
      omega

theorem countP_eq_succ_of_flip {α : Type} {p q : α → Bool} :
    ∀ {l : List α}, l.Nodup →
    ∀ {a : α}, a ∈ l → p a = false → q a = true →
    (∀ x ∈ l, x ≠ a → p x = q x) →
    l.countP p + 1 = l.countP q := by
  intro l
  induction l with
  | nil => intro _ a ha; exact absurd ha (List.not_mem_nil a)
  | cons b rest ih =>
    intro hnd a ha hpa hqa hagree
    rcases List.mem_cons.1 ha with hab | har
    · subst hab
      have h1 : List.countP p (a :: rest) = List.countP p rest :=
        List.countP_cons_of_neg p rest (by simp [hpa])
      have h2 : List.countP q (a :: rest) = List.countP q rest + 1 :=
        List.countP_cons_of_pos q rest hqa
      have h3 : rest.countP p = rest.countP q := by
        apply List.countP_congr
        intro x hx
        have hxa : x ≠ a := fun he => (List.nodup_cons.1 hnd).1 (he ▸ hx)
        rw [hagree x (List.mem_cons_of_mem _ hx) hxa]
      omega
    · have hba : b ≠ a := fun he => (List.nodup_cons.1 hnd).1 (he ▸ har)
      have hb := hagree b (List.mem_cons_self _ _) hba
      have hrest := ih (List.nodup_cons.1 hnd).2 har hpa hqa
        (fun x hx hxa => hagree x (List.mem_cons_of_mem _ hx) hxa)
      have h1 := List.countP_cons p b rest
      have h2 := List.countP_cons q b rest
      rw [hb] at h1
      omega

theorem countP_eq_of_agree {α : Type} {p q : α → Bool} {l : List α}
    (h : ∀ x ∈ l, p x = q x) : l.countP p = l.countP q := by
  apply List.countP_congr
  intro x hx
  rw [h x hx]

theorem hiddenCount_le (g : Grid) :
    hiddenCount g ≤ g.grid_height * g.grid_width := by
  unfold hiddenCount
  calc (allCells g.grid_height g.grid_width).countP _
      ≤ (allCells g.grid_height g.grid_width).length := List.countP_le_length _
    _ = g.grid_height * g.grid_width := length_allCells _ _

theorem hiddenCount_le_of_pointwise {a b : Grid}
    (hH : b.grid_height = a.grid_height) (hW : b.grid_width = a.grid_width)
    (h : ∀ x, b.grid x = -1 → a.grid x = -1) :
    hiddenCount b ≤ hiddenCount a := by
  unfold hiddenCount
  rw [hH, hW]
  exact List.countP_mono_left (fun x _ hx => by
    simp only [decide_eq_true_eq] at hx ⊢
    exact h x hx)

theorem hiddenCount_lt_of_pointwise {a b : Grid}
    (hH : b.grid_height = a.grid_height) (hW : b.grid_width = a.grid_width)
    (h : ∀ x, b.grid x = -1 → a.grid x = -1)
    {x0 : Cell} (hx0H : x0.1 < a.grid_height) (hx0W : x0.2 < a.grid_width)
    (ha : a.grid x0 = -1) (hb : b.grid x0 ≠ -1) :
    hiddenCount b < hiddenCount a := by
  unfold hiddenCount
  rw [hH, hW]
  apply countP_lt_of_flip
  · intro x _ hx
    simp only [decide_eq_true_eq] at hx ⊢
    exact h x hx
  · exact mem_allCells.2 ⟨hx0H, hx0W⟩
  · simp [ha]
  · simp [hb]

/-! ### Generic left-fold reasoning -/

theorem foldl_rel {P : Grid → Grid → Prop} {I : Grid → Prop}
    (htrans : ∀ a b c, P a b → P b c → P a c)
    (hrefl : ∀ g, P g g)
    (f : Grid → Cell → Grid) :
    ∀ (l : List Cell) (g0 : Grid), I g0 →
      (∀ acc nb, nb ∈ l → I acc → P acc (f acc nb) ∧ I (f acc nb)) →
      P g0 (l.foldl f g0) ∧ I (l.foldl f g0) := by
  intro l
  induction l with
  | nil => intro g0 hI _; exact ⟨hrefl g0, hI⟩
  | cons nb rest ih =>
    intro g0 hI hstep
    have h1 := hstep g0 nb (List.mem_cons_self _ _) hI
    have h2 := ih (f g0 nb) h1.2
      (fun acc x hx hI2 => hstep acc x (List.mem_cons_of_mem _ hx) hI2)
    exact ⟨htrans _ _ _ h1.1 h2.1, h2.2⟩

/-! ### Preservation and monotonicity of `discover_cell` -/

theorem Pbasic_refl (g : Grid) : Pbasic g g :=
  ⟨rfl, rfl, rfl, rfl, fun h => h, fun _ h => h⟩

theorem Pbasic_trans (a b c : Grid) (h1 : Pbasic a b) (h2 : Pbasic b c) :
    Pbasic a c := by
  obtain ⟨e1, e2, e3, e4, e5, e6⟩ := h1
  obtain ⟨f1, f2, f3, f4, f5, f6⟩ := h2
  exact ⟨f1.trans e1, f2.trans e2, f3.trans e3, f4.trans e4,
    fun h => f5 (e5 h), fun x h => e6 x (f6 x h)⟩

theorem dall_grid (g : Grid) (x : Cell) :
    (discover_all_non_flagged_bombs g).grid x =
      if x.1 < g.grid_height ∧ x.2 < g.grid_width then
        (if x ∈ g.bombs then (if g.grid x = -2 then g.grid x else 9)
         else (if g.grid x = -2 then -3 else g.grid x))
      else g.grid x := rfl

theorem dall_hidden (g : Grid) (x : Cell)
    (h : (discover_all_non_flagged_bombs g).grid x = -1) : g.grid x = -1 := by
  rw [dall_grid] at h
  split_ifs at h <;> omega

theorem discover_cell_basic :
    ∀ (fuel : Nat) (g : Grid) (c : Cell), Pbasic g (discover_cell fuel g c) := by
  intro fuel
  induction fuel with
  | zero => intro g c; exact Pbasic_refl g
  | succ f ih =>
    intro g c
    rw [discover_cell]
    by_cases hflag : g.grid c = -2
    · simp only [hflag, if_pos rfl]
      exact Pbasic_refl g
    · simp only [if_neg hflag]
      set n := check_for_bombs g c with hn
      set g1 := setCell g c n with hg1
      set g2 := (if n = 9 then
          { setCell (discover_all_non_flagged_bombs g1) c 10 with game_ended := true }
        else g1) with hg2
      have hbase : Pbasic g g2 := by
        by_cases h9 : n = 9
        · rw [hg2, if_pos h9]
          refine ⟨rfl, rfl, rfl, rfl, fun _ => rfl, ?_⟩
          intro x hx
          have hx2 : (setCell (discover_all_non_flagged_bombs g1) c 10).grid x = -1 := hx
          rw [setCell_grid] at hx2
          by_cases hxc : x = c
          · rw [if_pos hxc] at hx2; omega
          · rw [if_neg hxc] at hx2
            have hx3 := dall_hidden g1 x hx2
            rw [hg1, setCell_grid, if_neg hxc] at hx3
            exact hx3
        · rw [hg2, if_neg h9]
          refine ⟨rfl, rfl, rfl, rfl, fun h => h, ?_⟩
          intro x hx
          rw [hg1, setCell_grid] at hx
          by_cases hxc : x = c
          · rw [if_pos hxc] at hx
            have hnn : (0 : Int) ≤ n := by
              rw [hn]; exact bomb_value_nonneg _ _ _ _
            omega
          · rwa [if_neg hxc] at hx
      by_cases h0 : n = 0
      · simp only [if_pos h0]
        have hfold := foldl_rel (I := fun _ => True) Pbasic_trans Pbasic_refl
          (fun a nb => discover_cell f a nb)
          ((get_neighbours g2 c).filter (fun nb => decide (g2.grid nb = -1))) g2
          trivial (fun acc nb _ _ => ⟨ih acc nb, trivial⟩)
        exact Pbasic_trans _ _ _ hbase hfold.1
      · simp only [if_neg h0]
        exact hbase

theorem discover_cell_height (fuel : Nat) (g : Grid) (c : Cell) :
    (discover_cell fuel g c).grid_height = g.grid_height :=
  (discover_cell_basic fuel g c).1

theorem discover_cell_width (fuel : Nat) (g : Grid) (c : Cell) :
    (discover_cell fuel g c).grid_width = g.grid_width :=
  (discover_cell_basic fuel g c).2.1

theorem discover_cell_bombs (fuel : Nat) (g : Grid) (c : Cell) :
    (discover_cell fuel g c).bombs = g.bombs :=
  (discover_cell_basic fuel g c).2.2.1

theorem discover_cell_bombs_nb (fuel : Nat) (g : Grid) (c : Cell) :
    (discover_cell fuel g c).bombs_nb = g.bombs_nb :=
  (discover_cell_basic fuel g c).2.2.2.1

theorem discover_cell_ended_mono (fuel : Nat) (g : Grid) (c : Cell)
    (h : g.game_ended = true) : (discover_cell fuel g c).game_ended = true :=
  (discover_cell_basic fuel g c).2.2.2.2.1 h

theorem discover_cell_hidden_mono (fuel : Nat) (g : Grid) (c : Cell) (x : Cell)
    (h : (discover_cell fuel g c).grid x = -1) : g.grid x = -1 :=
  (discover_cell_basic fuel g c).2.2.2.2.2 x h

/-! ### Unfolding lemmas for one step of `discover_cell` -/

theorem discover_cell_succ_flagged (f : Nat) (g : Grid) (c : Cell)
    (h : g.grid c = -2) : discover_cell (f + 1) g c = g := by
  rw [discover_cell, if_pos h]

theorem discover_cell_succ_bomb (f : Nat) (g : Grid) (c : Cell)
    (h1 : g.grid c ≠ -2) (h2 : check_for_bombs g c = 9) :
    discover_cell (f + 1) g c =
      { setCell (discover_all_non_flagged_bombs (setCell g c 9)) c 10 with
        game_ended := true } := by
  rw [discover_cell, if_neg h1]
  simp only [h2]
  norm_num

theorem discover_cell_succ_pos (f : Nat) (g : Grid) (c : Cell)
    (h1 : g.grid c ≠ -2) (h2 : check_for_bombs g c ≠ 9)
    (h3 : check_for_bombs g c ≠ 0) :
    discover_cell (f + 1) g c = setCell g c (check_for_bombs g c) := by
  rw [discover_cell, if_neg h1]
  simp only [if_neg h2, if_neg h3]

theorem discover_cell_succ_zero (f : Nat) (g : Grid) (c : Cell)
    (h1 : g.grid c ≠ -2) (h3 : check_for_bombs g c = 0) :
    discover_cell (f + 1) g c =
      ((get_neighbours (setCell g c 0) c).filter
        (fun nb => decide ((setCell g c 0).grid nb = -1))).foldl
        (fun a nb => discover_cell f a nb) (setCell g c 0) := by
  rw [discover_cell, if_neg h1]
  simp only [h3]
  norm_num

theorem discover_cell_ended_of_not_bomb :
    ∀ (fuel : Nat) (g : Grid) (c : Cell), c ∉ g.bombs →
      (discover_cell fuel g c).game_ended = g.game_ended := by
  intro fuel
  induction fuel with
  | zero => intro g c _; rfl
  | succ f ih =>
    intro g c hc
    rw [discover_cell]
    by_cases hflag : g.grid c = -2
    · rw [if_pos hflag]
    · rw [if_neg hflag]
      set n := check_for_bombs g c with hn
      set g1 := setCell g c n with hg1
      set g2 := (if n = 9 then
          { setCell (discover_all_non_flagged_bombs g1) c 10 with game_ended := true }
        else g1) with hg2
      have h9 : n ≠ 9 := by rw [hn]; exact bomb_value_ne_nine hc
      have hg2e : g2 = g1 := by rw [hg2, if_neg h9]
      have hg2ended : g2.game_ended = g.game_ended := by rw [hg2e, hg1]; rfl
      by_cases h0 : n = 0
      · rw [if_pos h0]
        have hbv : bomb_value g.grid_height g.grid_width g.bombs c = 0 := h0
        have hnbs := (bomb_value_zero hbv).2
        have hfold := foldl_rel
          (P := fun a b => b.game_ended = a.game_ended)
          (I := fun a => a.bombs = g.bombs)
          (fun a b c h1 h2 => h2.trans h1) (fun _ => rfl)
          (fun a nb => discover_cell f a nb)
          ((get_neighbours g2 c).filter (fun nb => decide (g2.grid nb = -1))) g2
          (by rw [hg2e, hg1]; rfl)
          (fun acc nb hmem hI => by
            have hmem2 : nb ∈ get_neighbours g2 c := (List.mem_filter.1 hmem).1
            have hmem3 : nb ∈ neighbours g.grid_height g.grid_width c := by
              rw [hg2e, hg1] at hmem2; exact hmem2
            have hnotb : nb ∉ acc.bombs := by
              rw [hI]; exact hnbs nb hmem3
            exact ⟨ih acc nb hnotb, by
              show (discover_cell f acc nb).bombs = g.bombs
              rw [discover_cell_bombs]; exact hI⟩)
        rw [hfold.1, hg2ended]
      · rw [if_neg h0]
        rw [hg2ended]

/-- Characterisation of a non-losing `discover_cell` run: every cell is
either untouched, or is a previously hidden cell or the call target, and in
the latter case now holds its `bomb_value`, which is not `9`. -/
theorem foldl_discover_nonlosing (f : Nat) (H W : Nat) (B : List Cell)
    (IH : ∀ (g : Grid) (c : Cell),
      (discover_cell f g c).game_ended = false →
      ∀ x, (discover_cell f g c).grid x = g.grid x ∨
        ((discover_cell f g c).grid x =
            bomb_value g.grid_height g.grid_width g.bombs x ∧
         bomb_value g.grid_height g.grid_width g.bombs x ≠ 9 ∧
         (g.grid x = -1 ∨ x = c))) :
    ∀ (l : List Cell) (g0 : Grid),
      g0.grid_height = H → g0.grid_width = W → g0.bombs = B →
      (l.foldl (fun a nb => discover_cell f a nb) g0).game_ended = false →
      g0.game_ended = false ∧
      ∀ x, (l.foldl (fun a nb => discover_cell f a nb) g0).grid x = g0.grid x ∨
        ((l.foldl (fun a nb => discover_cell f a nb) g0).grid x =
            bomb_value H W B x ∧
         bomb_value H W B x ≠ 9 ∧ (g0.grid x = -1 ∨ x ∈ l)) := by
  intro l
  induction l with
  | nil =>
    intro g0 _ _ _ hend
    exact ⟨hend, fun x => Or.inl rfl⟩
  | cons nb rest ih =>
    intro g0 hH hW hB hend
    rw [List.foldl_cons] at hend ⊢
    have hrest := ih (discover_cell f g0 nb)
      ((discover_cell_height f g0 nb).trans hH)
      ((discover_cell_width f g0 nb).trans hW)
      ((discover_cell_bombs f g0 nb).trans hB) hend
    have hacc : (discover_cell f g0 nb).game_ended = false := hrest.1
    have hg0 : g0.game_ended = false := by
      by_contra hg
      rw [Bool.not_eq_false] at hg
      rw [discover_cell_ended_mono f g0 nb hg] at hacc
      exact Bool.true_eq_false ▸ hacc
    refine ⟨hg0, fun x => ?_⟩
    have hhead := IH g0 nb hacc x
    rw [hH, hW, hB] at hhead
    rcases hrest.2 x with h1 | ⟨h1, h2, h3⟩
    · rw [h1]
      rcases hhead with h4 | ⟨h4, h5, h6⟩
      · exact Or.inl h4
      · refine Or.inr ⟨h4, h5, ?_⟩
        rcases h6 with h6 | h6
        · exact Or.inl h6
        · exact Or.inr (h6 ▸ List.mem_cons_self _ _)
    · refine Or.inr ⟨h1, h2, ?_⟩
      rcases h3 with h3 | h3
      · exact Or.inl (discover_cell_hidden_mono f g0 nb x h3)
      · exact Or.inr (List.mem_cons_of_mem _ h3)

theorem discover_cell_nonlosing :
    ∀ (fuel : Nat) (g : Grid) (c : Cell),
      (discover_cell fuel g c).game_ended = false →
      ∀ x, (discover_cell fuel g c).grid x = g.grid x ∨
        ((discover_cell fuel g c).grid x =
            bomb_value g.grid_height g.grid_width g.bombs x ∧
         bomb_value g.grid_height g.grid_width g.bombs x ≠ 9 ∧
         (g.grid x = -1 ∨ x = c)) := by
  intro fuel
  induction fuel with
  | zero => intro g c _ x; exact Or.inl rfl
  | succ f ih =>
    intro g c hend x
    by_cases hflag : g.grid c = -2
    · rw [discover_cell_succ_flagged f g c hflag]
      exact Or.inl rfl
    · have hbvc : bomb_value g.grid_height g.grid_width g.bombs c =
          check_for_bombs g c := rfl
      by_cases h9 : check_for_bombs g c = 9
      · exfalso
        rw [discover_cell_succ_bomb f g c hflag h9] at hend
        simp at hend
      · by_cases h0 : check_for_bombs g c = 0
        · rw [discover_cell_succ_zero f g c hflag h0] at hend ⊢
          have hfold := foldl_discover_nonlosing f g.grid_height g.grid_width g.bombs
            ih ((get_neighbours (setCell g c 0) c).filter
              (fun nb => decide ((setCell g c 0).grid nb = -1))) (setCell g c 0)
            rfl rfl rfl hend
          have hg1c : (setCell g c 0).grid c = 0 := by
            rw [setCell_grid, if_pos rfl]
          have hg1x : ∀ y, y ≠ c → (setCell g c 0).grid y = g.grid y := by
            intro y hy; rw [setCell_grid, if_neg hy]
          rcases hfold.2 x with h1 | ⟨h1, h2, h3⟩
          · by_cases hxc : x = c
            · subst hxc
              rw [h1, hg1c]
              refine Or.inr ⟨?_, ?_, Or.inr rfl⟩
              · rw [hbvc, h0]
              · rw [hbvc, h0]; norm_num
            · rw [h1, hg1x x hxc]
              exact Or.inl rfl
          · refine Or.inr ⟨h1, h2, ?_⟩
            by_cases hxc : x = c
            · exact Or.inr hxc
            · rcases h3 with h3 | h3
              · rw [hg1x x hxc] at h3
                exact Or.inl h3
              · have h4 : (setCell g c 0).grid x = -1 :=
                  of_decide_eq_true (List.mem_filter.1 h3).2
                rw [hg1x x hxc] at h4
                exact Or.inl h4
        · rw [discover_cell_succ_pos f g c hflag h9 h0]
          by_cases hxc : x = c
          · subst hxc
            rw [setCell_grid, if_pos rfl]
            exact Or.inr ⟨hbvc, by rw [hbvc]; exact h9, Or.inr rfl⟩
          · rw [setCell_grid, if_neg hxc]
            exact Or.inl rfl

/-! ### Fold corollaries of the basic bundle -/

theorem foldl_discover_basic (k : Nat) (l : List Cell) (g0 : Grid) :
    Pbasic g0 (l.foldl (fun a nb => discover_cell k a nb) g0) :=
  (foldl_rel (I := fun _ => True) Pbasic_trans Pbasic_refl
    (fun a nb => discover_cell k a nb) l g0 trivial
    (fun acc nb _ _ => ⟨discover_cell_basic k acc nb, trivial⟩)).1

theorem foldl_discover_ended_mono (k : Nat) (l : List Cell) (g0 : Grid)
    (h : g0.game_ended = true) :
    (l.foldl (fun a nb => discover_cell k a nb) g0).game_ended = true :=
  (foldl_discover_basic k l g0).2.2.2.2.1 h

theorem foldl_discover_hidden_mono (k : Nat) (l : List Cell) (g0 : Grid) (x : Cell)
    (h : (l.foldl (fun a nb => discover_cell k a nb) g0).grid x = -1) :
    g0.grid x = -1 :=
  (foldl_discover_basic k l g0).2.2.2.2.2 x h

/-- A non-losing `discover_cell` call on a non-flagged cell leaves that cell
holding its `check_for_bombs` value. -/
theorem discover_cell_root_value (f : Nat) (g : Grid) (c : Cell)
    (h1 : g.grid c ≠ -2)
    (hend : (discover_cell (f + 1) g c).game_ended = false) :
    (discover_cell (f + 1) g c).grid c = check_for_bombs g c := by
  by_cases h9 : check_for_bombs g c = 9
  · rw [discover_cell_succ_bomb f g c h1 h9] at hend
    simp at hend
  · by_cases h0 : check_for_bombs g c = 0
    · rw [discover_cell_succ_zero f g c h1 h0] at hend ⊢
      have hfold := foldl_discover_nonlosing f g.grid_height g.grid_width g.bombs
        (discover_cell_nonlosing f)
        ((get_neighbours (setCell g c 0) c).filter
          (fun nb => decide ((setCell g c 0).grid nb = -1))) (setCell g c 0)
        rfl rfl rfl hend
      rcases hfold.2 c with h2 | ⟨h2, h3, h4⟩
      · rw [h0, h2, setCell_grid, if_pos rfl]
      · exact h2
    · rw [discover_cell_succ_pos f g c h1 h9 h0, setCell_grid, if_pos rfl]

/-- Folding `discover_cell` over a list of non-flagged cells (with a
non-losing outcome) leaves every listed cell non-hidden. -/
theorem foldl_discover_reveals (f : Nat) :
    ∀ (l : List Cell) (g0 : Grid),
      (l.foldl (fun a nb => discover_cell (f + 1) a nb) g0).game_ended = false →
      (∀ nb ∈ l, g0.grid nb ≠ -2) →
      ∀ nb ∈ l, (l.foldl (fun a nb => discover_cell (f + 1) a nb) g0).grid nb ≠ -1 := by
  intro l
  induction l with
  | nil => intro g0 _ _ nb hnb; exact absurd hnb (List.not_mem_nil nb)
  | cons nb0 rest ih =>
    intro g0 hend hnf nb hnb
    rw [List.foldl_cons] at hend ⊢
    have hacc : (discover_cell (f + 1) g0 nb0).game_ended = false := by
      by_contra hg
      rw [Bool.not_eq_false] at hg
      rw [foldl_discover_ended_mono (f + 1) rest _ hg] at hend
      exact Bool.true_eq_false ▸ hend
    have haccnf : ∀ x ∈ rest, (discover_cell (f + 1) g0 nb0).grid x ≠ -2 := by
      intro x hx
      rcases discover_cell_nonlosing (f + 1) g0 nb0 hacc x with h1 | ⟨h1, h2, h3⟩
      · rw [h1]; exact hnf x (List.mem_cons_of_mem _ hx)
      · rw [h1]
        have := bomb_value_nonneg g0.grid_height g0.grid_width g0.bombs x
        omega
    rcases List.mem_cons.1 hnb with hhd | hrest
    · subst hhd
      have hroot := discover_cell_root_value f g0 nb
        (hnf nb (List.mem_cons_self _ _)) hacc
      have hnn := bomb_value_nonneg g0.grid_height g0.grid_width g0.bombs nb
      intro hfin
      have := foldl_discover_hidden_mono (f + 1) rest _ nb hfin
      rw [hroot] at this
      have hcfb : check_for_bombs g0 nb =
          bomb_value g0.grid_height g0.grid_width g0.bombs nb := rfl
      rw [hcfb] at this
      omega
    · exact ih (discover_cell (f + 1) g0 nb0) hend haccnf nb hrest

/-- After a non-losing reveal of a non-flagged cell with `check_for_bombs`
value `0`, no neighbour of the cell is still hidden. -/
theorem discover_cell_zero_neighbours (f : Nat) (g : Grid) (c : Cell)
    (h1 : g.grid c ≠ -2) (h0 : check_for_bombs g c = 0)
    (hend : (discover_cell (f + 2) g c).game_ended = false) :
    ∀ nb ∈ get_neighbours g c, (discover_cell (f + 2) g c).grid nb ≠ -1 := by
  rw [discover_cell_succ_zero (f + 1) g c h1 h0] at hend ⊢
  intro nb hnb
  have hgn : get_neighbours (setCell g c 0) c = get_neighbours g c := rfl
  by_cases hhid : (setCell g c 0).grid nb = -1
  · apply foldl_discover_reveals f _ _ hend
    · intro x hx
      have h2 : (setCell g c 0).grid x = -1 :=
        of_decide_eq_true (List.mem_filter.1 hx).2
      rw [h2]
      norm_num
    · rw [List.mem_filter]
      exact ⟨by rw [hgn]; exact hnb, decide_eq_true hhid⟩
  · intro hfin
    exact hhid (foldl_discover_hidden_mono (f + 1) _ _ nb hfin)

/-! ### Stabilisation: enough fuel computes the flood-fill fixpoint -/

theorem hiddenCount_setCell_of_hidden (g : Grid) (c : Cell) (v : Int)
    (hc : g.grid c = -1) (hv : v ≠ -1)
    (hH : c.1 < g.grid_height) (hW : c.2 < g.grid_width) :
    hiddenCount (setCell g c v) + 1 = hiddenCount g := by
  unfold hiddenCount
  apply countP_eq_succ_of_flip (nodup_allCells _ _) (mem_allCells.2 ⟨hH, hW⟩)
  · rw [setCell_grid, if_pos rfl]
    simp [hv]
  · simp [hc]
  · intro x _ hx
    rw [setCell_grid, if_neg hx]

theorem hiddenCount_setCell_of_other (g : Grid) (c : Cell) (v : Int)
    (hc : ¬(g.grid c = -1 ∧ c.1 < g.grid_height ∧ c.2 < g.grid_width))
    (hv : v ≠ -1) :
    hiddenCount (setCell g c v) = hiddenCount g := by
  unfold hiddenCount
  apply countP_eq_of_agree
  intro x hx
  by_cases hxc : x = c
  · subst hxc
    have hb := mem_allCells.1 hx
    have hg : g.grid x ≠ -1 := fun he => hc ⟨he, hb.1, hb.2⟩
    rw [setCell_grid, if_pos rfl]
    simp [hv, hg]
  · rw [setCell_grid, if_neg hxc]

theorem foldl_discover_congr (a b : Nat)
    (IH : ∀ (g : Grid) (c : Cell), mu g c < a → mu g c < b →
      discover_cell a g c = discover_cell b g c) :
    ∀ (l : List Cell) (g2 acc : Grid),
      acc.grid_height = g2.grid_height → acc.grid_width = g2.grid_width →
      (∀ x, acc.grid x = -1 → g2.grid x = -1) →
      (∀ nb ∈ l, nb.1 < g2.grid_height ∧ nb.2 < g2.grid_width ∧ g2.grid nb = -1) →
      2 * hiddenCount g2 < a → 2 * hiddenCount g2 < b →
      l.foldl (fun x nb => discover_cell a x nb) acc =
        l.foldl (fun x nb => discover_cell b x nb) acc := by
  intro l
  induction l with
  | nil => intros; rfl
  | cons nb rest ih =>
    intro g2 acc hH hW hpt hl ha hb
    rw [List.foldl_cons, List.foldl_cons]
    have hnb := hl nb (List.mem_cons_self _ _)
    have haccle : hiddenCount acc ≤ hiddenCount g2 :=
      hiddenCount_le_of_pointwise hH hW hpt
    have hmua : mu acc nb < a ∧ mu acc nb < b := by
      by_cases hhid : acc.grid nb = -1
      · have hmu : mu acc nb = 2 * hiddenCount acc := by
          unfold mu
          rw [if_pos ⟨hhid, by rw [hH]; exact hnb.1, by rw [hW]; exact hnb.2.1⟩]
          omega
        omega
      · have hlt : hiddenCount acc < hiddenCount g2 :=
          hiddenCount_lt_of_pointwise hH hW hpt hnb.1 hnb.2.1 hnb.2.2 hhid
        have hmu : mu acc nb ≤ 2 * hiddenCount acc + 1 := by
          unfold mu
          split_ifs with h
          · omega
          · omega
        omega
    have hstep : discover_cell a acc nb = discover_cell b acc nb :=
      IH acc nb hmua.1 hmua.2
    show List.foldl (fun x nb => discover_cell a x nb) (discover_cell a acc nb) rest =
      List.foldl (fun x nb => discover_cell b x nb) (discover_cell b acc nb) rest
    rw [hstep]
    exact ih g2 (discover_cell b acc nb)
      ((discover_cell_height b acc nb).trans hH)
      ((discover_cell_width b acc nb).trans hW)
      (fun x hx => hpt x (discover_cell_hidden_mono b acc nb x hx))
      (fun x hx => hl x (List.mem_cons_of_mem _ hx)) ha hb

theorem discover_cell_fuel_congr :
    ∀ (a b : Nat) (g : Grid) (c : Cell), mu g c < a → mu g c < b →
      discover_cell a g c = discover_cell b g c := by
  intro a
  induction a using Nat.strong_induction_on with
  | _ a IH =>
    intro b g c ha hb
    obtain ⟨a1, rfl⟩ : ∃ a1, a = a1 + 1 := ⟨a - 1, by omega⟩
    obtain ⟨b1, rfl⟩ : ∃ b1, b = b1 + 1 := ⟨b - 1, by omega⟩
    by_cases hflag : g.grid c = -2
    · rw [discover_cell_succ_flagged a1 g c hflag,
        discover_cell_succ_flagged b1 g c hflag]
    · by_cases h9 : check_for_bombs g c = 9
      · rw [discover_cell_succ_bomb a1 g c hflag h9,
          discover_cell_succ_bomb b1 g c hflag h9]
      · by_cases h0 : check_for_bombs g c = 0
        · rw [discover_cell_succ_zero a1 g c hflag h0,
            discover_cell_succ_zero b1 g c hflag h0]
          have hbound : 2 * hiddenCount (setCell g c 0) < a1 ∧
              2 * hiddenCount (setCell g c 0) < b1 := by
            by_cases hcase : g.grid c = -1 ∧ c.1 < g.grid_height ∧ c.2 < g.grid_width
            · have hdrop := hiddenCount_setCell_of_hidden g c 0 hcase.1
                (by norm_num) hcase.2.1 hcase.2.2
              have hmu : mu g c = 2 * hiddenCount g := by
                unfold mu; rw [if_pos hcase]; omega
              omega
            · have hsame := hiddenCount_setCell_of_other g c 0 hcase (by norm_num)
              have hmu : mu g c = 2 * hiddenCount g + 1 := by
                unfold mu; rw [if_neg hcase]
              omega
          apply foldl_discover_congr a1 b1
            (fun g' c' h1 h2 => IH a1 (Nat.lt_succ_self a1) b1 g' c' h1 h2)
            _ (setCell g c 0) (setCell g c 0) rfl rfl (fun x hx => hx)
            ?_ hbound.1 hbound.2
          intro x hx
          have hmemf := List.mem_filter.1 hx
          have hmemn : x ∈ neighbours g.grid_height g.grid_width c := hmemf.1
          have hbd := mem_neighbours_bounds hmemn
          exact ⟨hbd.1, hbd.2, of_decide_eq_true hmemf.2⟩
        · rw [discover_cell_succ_pos a1 g c hflag h9 h0,
            discover_cell_succ_pos b1 g c hflag h9 h0]

/-! ### Reveal-level helpers -/

theorem discover_cell_flagged (fuel : Nat) (g : Grid) (c : Cell)
    (h : g.grid c = -2) : discover_cell fuel g c = g := by
  cases fuel with
  | zero => rfl
  | succ f => exact discover_cell_succ_flagged f g c h

theorem flag_non_grid (g : Grid) (x : Cell) :
    (flag_non_flagged_bombs g).grid x =
      if x ∈ g.bombs ∧ g.grid x = -1 then -2 else g.grid x := rfl

theorem reveal_of_ended (g : Grid) (c : Cell) (h : g.game_ended = true) :
    reveal g c = g := by
  rw [reveal, if_pos h]

theorem toggle_flag_of_ended (g : Grid) (c : Cell) (h : g.game_ended = true) :
    toggle_flag g c = g := by
  rw [toggle_flag, if_pos h]

theorem reveal_of_not_ended (g : Grid) (c : Cell) (h : g.game_ended = false) :
    reveal g c =
      if has_discovered_all_non_bombs_cells (discover_cell (revealFuel g) g c) then
        { flag_non_flagged_bombs (discover_cell (revealFuel g) g c) with
          game_ended := true }
      else discover_cell (revealFuel g) g c := by
  rw [reveal, if_neg (by simp [h])]

theorem toggle_flag_of_not_ended (g : Grid) (c : Cell) (h : g.game_ended = false) :
    toggle_flag g c = (flag_cell g c).1 := by
  rw [toggle_flag, if_neg (by simp [h])]

/-! ### Invariants of reachable states -/

theorem reachable_invariant {g : Grid} (h : Reachable g) :
    WellFormed g ∧ GoodValues g := by
  induction h with
  | base H W m bombs hm hlen hnd hbd =>
    refine ⟨⟨hnd, hlen, hbd⟩, fun _ => ⟨?_, ?_⟩⟩
    · intro x _ _ _
      exact Or.inl rfl
    · intro b _
      exact Or.inl rfl
  | rev g c hg hH hW ih =>
    by_cases hend : g.game_ended = true
    · rw [reveal_of_ended g c hend]
      exact ih
    · have hgend : g.game_ended = false := by
        rwa [Bool.not_eq_true] at hend
      rw [reveal_of_not_ended g c hgend]
      have hWF : WellFormed (discover_cell (revealFuel g) g c) := by
        obtain ⟨hnd, hlen, hbd⟩ := ih.1
        refine ⟨?_, ?_, ?_⟩
        · rw [discover_cell_bombs]; exact hnd
        · rw [discover_cell_bombs, discover_cell_bombs_nb]; exact hlen
        · rw [discover_cell_bombs]
          intro b hb
          rw [discover_cell_height, discover_cell_width]
          exact hbd b hb
      by_cases hall : has_discovered_all_non_bombs_cells
          (discover_cell (revealFuel g) g c) = true
      · rw [if_pos hall]
        refine ⟨?_, fun habs => absurd habs (by simp)⟩
        obtain ⟨hnd, hlen, hbd⟩ := hWF
        exact ⟨hnd, hlen, hbd⟩
      · rw [if_neg hall]
        refine ⟨hWF, ?_⟩
        intro hdend
        have hnl := discover_cell_nonlosing (revealFuel g) g c hdend
        obtain ⟨hgv1, hgv2⟩ := ih.2 hgend
        constructor
        · intro x hx1 hx2 hneg
          rw [discover_cell_height] at hx1
          rw [discover_cell_width] at hx2
          rcases hnl x with h1 | ⟨h1, h2, h3⟩
          · rw [h1] at hneg ⊢
            exact hgv1 x hx1 hx2 hneg
          · exfalso
            have := bomb_value_nonneg g.grid_height g.grid_width g.bombs x
            rw [h1] at hneg
            omega
        · rw [discover_cell_bombs]
          intro b hb
          rcases hnl b with h1 | ⟨h1, h2, h3⟩
          · rw [h1]
            exact hgv2 b hb
          · exact absurd (bomb_value_of_mem hb) h2
  | flag g c hg hH hW ih =>
    by_cases hend : g.game_ended = true
    · rw [toggle_flag_of_ended g c hend]
      exact ih
    · have hgend : g.game_ended = false := by
        rwa [Bool.not_eq_true] at hend
      rw [toggle_flag_of_not_ended g c hgend]
      obtain ⟨⟨hnd, hlen, hbd⟩, hgv⟩ := ih
      rw [flag_cell]
      split_ifs with h1 h2
      · refine ⟨⟨hnd, hlen, hbd⟩, fun _ => ?_⟩
        obtain ⟨hgv1, hgv2⟩ := hgv hgend
        constructor
        · intro x hx1 hx2 hneg
          rw [setCell_grid] at hneg ⊢
          by_cases hxc : x = c
          · rw [if_pos hxc]
            exact Or.inr rfl
          · rw [if_neg hxc] at hneg ⊢
            exact hgv1 x hx1 hx2 hneg
        · intro b hb
          rw [setCell_grid]
          by_cases hbc : b = c
          · rw [if_pos hbc]
            exact Or.inr rfl
          · rw [if_neg hbc]
            exact hgv2 b hb
      · refine ⟨⟨hnd, hlen, hbd⟩, fun _ => ?_⟩
        obtain ⟨hgv1, hgv2⟩ := hgv hgend
        constructor
        · intro x hx1 hx2 hneg
          rw [setCell_grid] at hneg ⊢
          by_cases hxc : x = c
          · rw [if_pos hxc]
            exact Or.inl rfl
          · rw [if_neg hxc] at hneg ⊢
            exact hgv1 x hx1 hx2 hneg
        · intro b hb
          rw [setCell_grid]
          by_cases hbc : b = c
          · rw [if_pos hbc]
            exact Or.inl rfl
          · rw [if_neg hbc]
            exact hgv2 b hb
      · exact ⟨⟨hnd, hlen, hbd⟩, hgv⟩

/-! ### The win-test counting argument -/

/-- If the win-count test holds while every bomb is hidden or flagged (and
bombs are `bombs_nb` distinct in-bounds cells), then the hidden-or-flagged
cells are exactly the bombs. -/
theorem hf_cells_eq_bombs (g : Grid) (hnd : g.bombs.Nodup)
    (hlen : g.bombs.length = g.bombs_nb)
    (hbd : ∀ b ∈ g.bombs, b.1 < g.grid_height ∧ b.2 < g.grid_width)
    (hmines : ∀ b ∈ g.bombs, g.grid b = -1 ∨ g.grid b = -2)
    (hcount : hfCount g = g.bombs_nb) :
    ∀ x : Cell, x.1 < g.grid_height → x.2 < g.grid_width →
      ((g.grid x = -1 ∨ g.grid x = -2) ↔ x ∈ g.bombs) := by
  set L := (allCells g.grid_height g.grid_width).filter
    (fun x => decide (g.grid x = -1 ∨ g.grid x = -2)) with hL
  have hLlen : L.length = g.bombs_nb := by
    rw [hL, ← List.countP_eq_length_filter]
    exact hcount
  have hLnd : L.Nodup := (nodup_allCells _ _).filter _
  have hsub : ∀ b ∈ g.bombs, b ∈ L := by
    intro b hb
    rw [hL, List.mem_filter]
    exact ⟨mem_allCells.2 (hbd b hb), decide_eq_true (hmines b hb)⟩
  have hfin : g.bombs.toFinset = L.toFinset := by
    apply Finset.eq_of_subset_of_card_le
    · intro b hb
      rw [List.mem_toFinset] at hb ⊢
      exact hsub b hb
    · rw [List.toFinset_card_of_nodup hLnd, List.toFinset_card_of_nodup hnd,
        hLlen, hlen]
  intro x hx1 hx2
  constructor
  · intro hx
    have hxL : x ∈ L := by
      rw [hL, List.mem_filter]
      exact ⟨mem_allCells.2 ⟨hx1, hx2⟩, decide_eq_true hx⟩
    rw [← List.mem_toFinset, hfin, List.mem_toFinset]
    exact hxL
  · intro hx
    exact hmines x hx

/-- On a grid with no `-3` (and no other negative values than `-1`, `-2`),
the source's negative-count win test agrees with counting hidden-or-flagged
cells. -/
theorem hasAll_iff_hfCount (g : Grid)
    (hneg : ∀ x : Cell, x.1 < g.grid_height → x.2 < g.grid_width →
      g.grid x < 0 → g.grid x = -1 ∨ g.grid x = -2) :
    has_discovered_all_non_bombs_cells g = true ↔ hfCount g = g.bombs_nb := by
  unfold has_discovered_all_non_bombs_cells hfCount
  rw [decide_eq_true_iff]
  have hcong : (allCells g.grid_height g.grid_width).countP
      (fun x => decide (g.grid x < 0)) =
      (allCells g.grid_height g.grid_width).countP
      (fun x => decide (g.grid x = -1 ∨ g.grid x = -2)) := by
    apply List.countP_congr
    intro x hx
    have hb := mem_allCells.1 hx
    simp only [decide_eq_true_eq]
    constructor
    · intro h
      exact hneg x hb.1 hb.2 h
    · intro h
      rcases h with h | h <;> omega
  rw [hcong]

/-! ### Claim theorems -/

/-- C1 (code_bug evidence).  The claim says revealing a non-flagged in-bounds
mine always sets the outcome to Lost.  In the reachable state reached by
flagging bomb `(0,1)` and revealing `(1,0)` on a 2x2 board with bombs
`(0,0), (0,1)`, revealing the mine `(0,0)` detonates it (`10`), ends the
game, yet the code's derived outcome (`draw_menu_bar` via
`has_discovered_all_non_bombs_cells`) is `Won`, because after the loss sweep
the count of negative cells (flagged bomb `(0,1)` and hidden non-bomb
`(1,1)`) equals `bombs_nb`; `has_discovered_all_non_bombs_cells` here
contradicts its own docstring, since the non-bomb `(1,1)` was never
discovered. -/
theorem C1_mine_reveal_reports_won :
    lossWonGrid.game_ended = true ∧
    lossWonGrid.grid (0,0) = 10 ∧
    lossWonGrid.grid (0,1) = -2 ∧
    lossWonGrid.grid (1,0) = 2 ∧
    lossWonGrid.grid (1,1) = -1 ∧
    outcome lossWonGrid = Outcome.Won := by decide

/-- C3.  The fuel-indexed flood fill stabilises: any fuel of at least
`2*height*width + 2` (two passes of the grid plus the root call, bounding the
recursion depth) yields the same result as the fuel `reveal` actually uses,
so `reveal` terminates having computed the flood-fill fixpoint, with the
recursion bounded by a measure linear in the `height*width` grid size. -/
theorem C3_discover_cell_fuel_sufficient (g : Grid) (c : Cell) (f : Nat)
    (h : 2 * g.grid_height * g.grid_width + 2 ≤ f) :
    discover_cell f g c = discover_cell (revealFuel g) g c := by
  have hassoc : 2 * g.grid_height * g.grid_width =
      2 * (g.grid_height * g.grid_width) := Nat.mul_assoc 2 _ _
  have h1 := hiddenCount_le g
  have h2 : mu g c ≤ 2 * hiddenCount g + 1 := by
    unfold mu; split_ifs <;> omega
  have h3 : mu g c < 2 * g.grid_height * g.grid_width + 2 := by omega
  exact discover_cell_fuel_congr f (revealFuel g) g c (by omega) h3

theorem C3_witness :
    2 * (Grid.init 1 2 0 []).grid_height * (Grid.init 1 2 0 []).grid_width + 2 ≤ 7 ∧
    discover_cell 7 (Grid.init 1 2 0 []) (0,0) =
      discover_cell (revealFuel (Grid.init 1 2 0 [])) (Grid.init 1 2 0 []) (0,0) :=
  ⟨by decide, C3_discover_cell_fuel_sufficient (Grid.init 1 2 0 []) (0,0) 7 (by decide)⟩

/-- C5 (counterexample).  The claim says the loss path leaves flagged
non-mine cells unchanged (still `-2`).  In the reachable state where the
non-bomb `(1,1)` is flagged, revealing the bomb `(0,0)` rewrites `(1,1)` to
`-3` (`FlaggedIncorrectly`): `discover_all_non_flagged_bombs` lines 116-117
perform exactly the conversion the claim denies. -/
theorem C5_counterexample :
    lossFlagGrid.grid (1,1) = -2 ∧ lossFlagGrid.game_ended = false ∧
    (reveal lossFlagGrid (0,0)).grid (1,1) = -3 := by decide

/-- C5 (amended).  On the loss path (revealing a non-flagged mine while the
game is running), every in-bounds flagged cell that is not a mine is
converted to `-3` (`FlaggedIncorrectly`), and flagged mine cells stay
flagged; the conversion the spec attributes to the win path happens on the
loss path. -/
theorem C5_loss_path_flags (g : Grid) (c : Cell)
    (hgend : g.game_ended = false) (hc : c ∈ g.bombs) (hcf : g.grid c ≠ -2) :
    (∀ x : Cell, x.1 < g.grid_height → x.2 < g.grid_width → x ∉ g.bombs →
      g.grid x = -2 → (reveal g c).grid x = -3) ∧
    (∀ b ∈ g.bombs, g.grid b = -2 → (reveal g c).grid b = -2) := by
  have h9 : check_for_bombs g c = 9 := bomb_value_of_mem hc
  obtain ⟨F1, hF1⟩ : ∃ F1, revealFuel g = F1 + 1 :=
    ⟨2 * g.grid_height * g.grid_width + 1, rfl⟩
  have hd : discover_cell (revealFuel g) g c =
      { setCell (discover_all_non_flagged_bombs (setCell g c 9)) c 10 with
        game_ended := true } := by
    rw [hF1]
    exact discover_cell_succ_bomb F1 g c hcf h9
  rw [reveal_of_not_ended g c hgend, hd]
  have hvalue : ∀ x : Cell, x ≠ c →
      (discover_all_non_flagged_bombs (setCell g c 9)).grid x =
      (if x.1 < g.grid_height ∧ x.2 < g.grid_width then
        (if x ∈ g.bombs then (if g.grid x = -2 then g.grid x else 9)
         else (if g.grid x = -2 then -3 else g.grid x))
       else g.grid x) := by
    intro x hx
    rw [dall_grid]
    simp only [setCell_grid, if_neg hx]
    rfl
  constructor
  · intro x hx1 hx2 hxb hxf
    have hxc : x ≠ c := fun he => hxb (he ▸ hc)
    have hx3 : (setCell (discover_all_non_flagged_bombs (setCell g c 9)) c 10).grid x
        = -3 := by
      rw [setCell_grid, if_neg hxc, hvalue x hxc, if_pos ⟨hx1, hx2⟩,
        if_neg hxb, if_pos hxf]
    split_ifs
    · show (flag_non_flagged_bombs _).grid x = -3
      rw [flag_non_grid]
      rw [if_neg]
      · exact hx3
      · intro hcontra
        rw [hx3] at hcontra
        omega
    · exact hx3
  · intro b hb hbf
    have hbc : b ≠ c := fun he => hcf (he ▸ hbf)
    have hb3 : (setCell (discover_all_non_flagged_bombs (setCell g c 9)) c 10).grid b
        = -2 := by
      rw [setCell_grid, if_neg hbc, hvalue b hbc]
      by_cases hbnd : b.1 < g.grid_height ∧ b.2 < g.grid_width
      · rw [if_pos hbnd, if_pos hb, if_pos hbf]
        exact hbf
      · rw [if_neg hbnd]
        exact hbf
    split_ifs
    · show (flag_non_flagged_bombs _).grid b = -2
      rw [flag_non_grid]
      rw [if_neg]
      · exact hb3
      · intro hcontra
        rw [hb3] at hcontra
        omega
    · exact hb3

theorem C5_witness :
    (∀ x : Cell, x.1 < lossFlagGrid.grid_height → x.2 < lossFlagGrid.grid_width →
      x ∉ lossFlagGrid.bombs → lossFlagGrid.grid x = -2 →
      (reveal lossFlagGrid (0,0)).grid x = -3) ∧
    (∀ b ∈ lossFlagGrid.bombs, lossFlagGrid.grid b = -2 →
      (reveal lossFlagGrid (0,0)).grid b = -2) :=
  C5_loss_path_flags lossFlagGrid (0,0) (by decide) (by decide) (by decide)

/-- C6.  Once the round is over (`outcome` is `Won` or `Lost`, equivalently
`game_ended`), the player-facing `reveal` and `toggle_flag` operations (the
GUI ignores clicks once `game_ended` holds, line 392) leave the whole state
unchanged: a no-op, not an error. -/
theorem C6_terminal_noop (g : Grid) (c : Cell)
    (h : outcome g = Outcome.Won ∨ outcome g = Outcome.Lost) :
    reveal g c = g ∧ toggle_flag g c = g := by
  have hend : g.game_ended = true := by
    by_contra hne
    rw [Bool.not_eq_true] at hne
    have : outcome g = Outcome.InProgress := by
      rw [outcome, if_neg (by simp [hne])]
    rcases h with h | h <;> rw [this] at h <;> exact Outcome.noConfusion h
  exact ⟨reveal_of_ended g c hend, toggle_flag_of_ended g c hend⟩

theorem C6_witness :
    reveal { Grid.init 1 1 0 [] with game_ended := true } (0,0) =
      { Grid.init 1 1 0 [] with game_ended := true } ∧
    toggle_flag { Grid.init 1 1 0 [] with game_ended := true } (0,0) =
      { Grid.init 1 1 0 [] with game_ended := true } :=
  C6_terminal_noop { Grid.init 1 1 0 [] with game_ended := true } (0,0)
    (Or.inr (by decide))

/-- C8 (counterexample).  The claim says revealing a flagged cell changes no
state at all (no cell value, no outcome).  In the reachable degenerate 1x1
round whose only cell is a flagged mine, revealing that flagged cell flips
`game_ended` and the outcome from `InProgress` to `Won`: the win test after
`discover_cell` (GUI lines 402-404) already holds, so the reveal ends the
game even though `discover_cell` itself did nothing. -/
theorem C8_counterexample :
    allMineFlagged.grid (0,0) = -2 ∧
    allMineFlagged.game_ended = false ∧
    outcome allMineFlagged = Outcome.InProgress ∧
    (reveal allMineFlagged (0,0)).game_ended = true ∧
    outcome (reveal allMineFlagged (0,0)) = Outcome.Won := by decide

/-- C8 (amended).  `discover_cell` on a flagged cell is a strict no-op, and
the full player-facing `reveal` of a flagged cell leaves the state unchanged
unless the win-count test already held before the click, in which case the
only effect is the win closure (`flag_non_flagged_bombs` and `game_ended`). -/
theorem C8_flagged_reveal (fuel : Nat) (g : Grid) (c : Cell)
    (h : g.grid c = -2) :
    discover_cell fuel g c = g ∧
    (g.game_ended = false → has_discovered_all_non_bombs_cells g = false →
      reveal g c = g) ∧
    (g.game_ended = false → has_discovered_all_non_bombs_cells g = true →
      reveal g c = { flag_non_flagged_bombs g with game_ended := true }) := by
  refine ⟨discover_cell_flagged fuel g c h, ?_, ?_⟩
  · intro hge hall
    rw [reveal_of_not_ended g c hge, discover_cell_flagged _ _ _ h,
      if_neg (by simp [hall])]
  · intro hge hall
    rw [reveal_of_not_ended g c hge, discover_cell_flagged _ _ _ h,
      if_pos hall]

theorem C8_witness :
    discover_cell 3 flaggedMidGame (0,0) = flaggedMidGame ∧
    reveal flaggedMidGame (0,0) = flaggedMidGame :=
  ⟨(C8_flagged_reveal 3 flaggedMidGame (0,0) (by decide)).1,
   (C8_flagged_reveal 3 flaggedMidGame (0,0) (by decide)).2.1 (by decide) (by decide)⟩

/-! ### Mine placement -/

theorem place_bombs_aux (m : Nat) :
    ∀ (draws acc : List Cell), acc.Nodup → acc.length ≤ m →
      (draws.foldl (place_bombs_step m) acc).Nodup ∧
      (draws.foldl (place_bombs_step m) acc).length ≤ m ∧
      ∀ b ∈ draws.foldl (place_bombs_step m) acc, b ∈ acc ∨ b ∈ draws := by
  intro draws
  induction draws with
  | nil =>
    intro acc hnd hlen
    exact ⟨hnd, hlen, fun b hb => Or.inl hb⟩
  | cons d rest ih =>
    intro acc hnd hlen
    rw [List.foldl_cons]
    have hstep : (place_bombs_step m acc d).Nodup ∧
        (place_bombs_step m acc d).length ≤ m ∧
        ∀ b ∈ place_bombs_step m acc d, b ∈ acc ∨ b = d := by
      rw [place_bombs_step]
      split_ifs with h1 h2
      · exact ⟨hnd, hlen, fun b hb => Or.inl hb⟩
      · refine ⟨?_, ?_, ?_⟩
        · rw [List.nodup_append]
          refine ⟨hnd, List.nodup_singleton d, ?_⟩
          intro a ha hb
          rw [List.mem_singleton] at hb
          exact h2 (hb ▸ ha)
        · rw [List.length_append, List.length_singleton]
          omega
        · intro b hb
          rcases List.mem_append.1 hb with hb | hb
          · exact Or.inl hb
          · exact Or.inr (List.mem_singleton.1 hb)
      · exact ⟨hnd, hlen, fun b hb => Or.inl hb⟩
    have hrest := ih (place_bombs_step m acc d) hstep.1 hstep.2.1
    refine ⟨hrest.1, hrest.2.1, ?_⟩
    intro b hb
    rcases hrest.2.2 b hb with hb2 | hb2
    · rcases hstep.2.2 b hb2 with hb3 | hb3
      · exact Or.inl hb3
      · exact Or.inr (hb3 ▸ List.mem_cons_self _ _)
    · exact Or.inr (List.mem_cons_of_mem _ hb2)

theorem place_bombs_of_nodup (m : Nat) :
    ∀ (draws acc : List Cell), (acc ++ draws).Nodup →
      acc.length + draws.length ≤ m →
      draws.foldl (place_bombs_step m) acc = acc ++ draws := by
  intro draws
  induction draws with
  | nil =>
    intro acc _ _
    rw [List.foldl_nil, List.append_nil]
  | cons d rest ih =>
    intro acc hnd hlen
    rw [List.foldl_cons]
    have hdacc : d ∉ acc := by
      have := List.disjoint_of_nodup_append hnd
      intro hmem
      exact this hmem (List.mem_cons_self _ _)
    have haccm : acc.length < m := by
      rw [List.length_cons] at hlen
      omega
    have hstep : place_bombs_step m acc d = acc ++ [d] := by
      rw [place_bombs_step, if_pos haccm, if_neg hdacc]
    rw [hstep]
    have hnd2 : ((acc ++ [d]) ++ rest).Nodup := by
      rw [← List.append_cons]
      exact hnd
    have hlen2 : (acc ++ [d]).length + rest.length ≤ m := by
      rw [List.length_append, List.length_singleton]
      rw [List.length_cons] at hlen
      omega
    rw [ih (acc ++ [d]) hnd2 hlen2, ← List.append_cons]

/-- C9.  Construction fails (the degenerate `self.grid = []` branch,
abstracted as `none`) exactly when `mine_count > height*width`; for
`m ≤ height*width` a terminating run of `place_bombs` exists (a draw stream
reaching `m` placed bombs), and every terminating run yields a grid with `m`
distinct in-bounds bombs, every cell hidden and the outcome `InProgress`. -/
theorem C9_construction (H W m : Nat) :
    (∀ bs : List Cell, m > H * W → Grid.new H W m bs = none) ∧
    (m ≤ H * W →
      (∃ draws, (∀ d ∈ draws, d.1 < H ∧ d.2 < W) ∧
        (place_bombs m draws).length = m) ∧
      ∀ draws : List Cell, (∀ d ∈ draws, d.1 < H ∧ d.2 < W) →
        (place_bombs m draws).length = m →
        ∃ g : Grid, Grid.new H W m (place_bombs m draws) = some g ∧
          g.bombs.Nodup ∧ g.bombs.length = m ∧
          (∀ b ∈ g.bombs, b.1 < g.grid_height ∧ b.2 < g.grid_width) ∧
          g.bombs_nb = m ∧ (∀ x : Cell, g.grid x = -1) ∧
          outcome g = Outcome.InProgress) := by
  constructor
  · intro bs hgt
    rw [Grid.new, if_pos hgt]
  · intro hm
    constructor
    · refine ⟨(allCells H W).take m, ?_, ?_⟩
      · intro d hd
        exact mem_allCells.1 (List.take_subset m _ hd)
      · have hnd : ((allCells H W).take m).Nodup :=
          (List.take_sublist m _).nodup (nodup_allCells H W)
        have hfix : place_bombs m ((allCells H W).take m) =
            (allCells H W).take m := by
          rw [place_bombs]
          have := place_bombs_of_nodup m ((allCells H W).take m) []
            (by simpa using hnd)
            (by
              rw [List.length_nil, List.length_take, length_allCells]
              omega)
          simpa using this
        rw [hfix, List.length_take, length_allCells]
        omega
    · intro draws hbd hcomplete
      have hno : ¬m > H * W := by omega
      refine ⟨Grid.init H W m (place_bombs m draws), by rw [Grid.new, if_neg hno], ?_⟩
      have haux := place_bombs_aux m draws [] (List.nodup_nil) (Nat.zero_le m)
      rw [← place_bombs] at haux
      refine ⟨haux.1, hcomplete, ?_, rfl, fun _ => rfl, rfl⟩
      intro b hb
      rcases haux.2.2 b hb with hb2 | hb2
      · exact absurd hb2 (List.not_mem_nil b)
      · exact hbd b hb2

theorem C9_witness :
    Grid.new 1 2 3 [] = none ∧
    (∃ g : Grid, Grid.new 1 2 1 (place_bombs 1 [(0,0)]) = some g ∧
      g.bombs.Nodup ∧ g.bombs.length = 1 ∧
      (∀ b ∈ g.bombs, b.1 < g.grid_height ∧ b.2 < g.grid_width) ∧
      g.bombs_nb = 1 ∧ (∀ x : Cell, g.grid x = -1) ∧
      outcome g = Outcome.InProgress) :=
  ⟨(C9_construction 1 2 3).1 [] (by decide),
   ((C9_construction 1 2 1).2 (by decide)).2 [(0,0)] (by decide) (by decide)⟩

/-- Revealing an already-revealed (non-flagged, non-losing) cell again
recomputes the same value and finds no hidden neighbours: the second
`discover_cell` run returns the state unchanged, at any successor fuel. -/
theorem discover_cell_fixpoint (g : Grid) (c : Cell) (k : Nat)
    (hflag : g.grid c ≠ -2)
    (hdf : (discover_cell (revealFuel g) g c).game_ended = false) :
    discover_cell (k + 1) (discover_cell (revealFuel g) g c) c =
      discover_cell (revealFuel g) g c := by
  have hdcv : (discover_cell (revealFuel g) g c).grid c = check_for_bombs g c :=
    discover_cell_root_value (2 * g.grid_height * g.grid_width + 1) g c hflag hdf
  have hcfb : check_for_bombs (discover_cell (revealFuel g) g c) c =
      check_for_bombs g c := by
    unfold check_for_bombs
    rw [discover_cell_height, discover_cell_width, discover_cell_bombs]
  have hnn : (0 : Int) ≤ check_for_bombs g c := bomb_value_nonneg _ _ _ _
  have h9 : check_for_bombs g c ≠ 9 := by
    intro h9
    have hdT : (discover_cell (revealFuel g) g c).game_ended = true := by
      have heq : discover_cell (revealFuel g) g c =
          { setCell (discover_all_non_flagged_bombs (setCell g c 9)) c 10 with
            game_ended := true } :=
        discover_cell_succ_bomb (2 * g.grid_height * g.grid_width + 1) g c hflag h9
      rw [heq]
    rw [hdT] at hdf
    exact Bool.noConfusion hdf
  have hflag2 : (discover_cell (revealFuel g) g c).grid c ≠ -2 := by
    rw [hdcv]; omega
  by_cases h0 : check_for_bombs g c = 0
  · have hzn := discover_cell_zero_neighbours (2 * g.grid_height * g.grid_width)
      g c hflag h0 hdf
    have hset : setCell (discover_cell (revealFuel g) g c) c 0 =
        discover_cell (revealFuel g) g c :=
      setCell_eq_self _ c 0 (by rw [hdcv, h0])
    have hcfb0 : check_for_bombs (discover_cell (revealFuel g) g c) c = 0 := by
      rw [hcfb]; exact h0
    rw [discover_cell_succ_zero k (discover_cell (revealFuel g) g c) c hflag2 hcfb0,
      hset]
    have hfilter : (get_neighbours (discover_cell (revealFuel g) g c) c).filter
        (fun nb => decide ((discover_cell (revealFuel g) g c).grid nb = -1)) = [] := by
      rw [List.filter_eq_nil_iff]
      intro nb hnb
      have hgn : get_neighbours (discover_cell (revealFuel g) g c) c =
          get_neighbours g c := by
        unfold get_neighbours
        rw [discover_cell_height, discover_cell_width]
      rw [hgn] at hnb
      simp only [decide_eq_true_eq]
      exact hzn nb hnb
    rw [hfilter, List.foldl_nil]
  · have hcfbne : check_for_bombs (discover_cell (revealFuel g) g c) c ≠ 9 := by
      rw [hcfb]; exact h9
    have hcfbn0 : check_for_bombs (discover_cell (revealFuel g) g c) c ≠ 0 := by
      rw [hcfb]; exact h0
    rw [discover_cell_succ_pos k (discover_cell (revealFuel g) g c) c hflag2
      hcfbne hcfbn0]
    exact setCell_eq_self _ c _ (by rw [hcfb]; exact hdcv)

/-- C7.  For every grid state and cell, revealing twice in succession gives
exactly the state of revealing once: once revealed, the cell's recomputed
value is identical, the cascade finds no hidden neighbours, and a reveal that
ended the game makes the second click a guarded no-op. -/
theorem C7_reveal_idempotent (g : Grid) (c : Cell) :
    reveal (reveal g c) c = reveal g c := by
  by_cases hend : g.game_ended = true
  · have h1 : reveal g c = g := reveal_of_ended g c hend
    rw [h1]
    exact h1
  · have hgend : g.game_ended = false := by rwa [Bool.not_eq_true] at hend
    have hrev := reveal_of_not_ended g c hgend
    by_cases hall : has_discovered_all_non_bombs_cells
        (discover_cell (revealFuel g) g c) = true
    · have hr1 : reveal g c = { flag_non_flagged_bombs
          (discover_cell (revealFuel g) g c) with game_ended := true } := by
        rw [hrev, if_pos hall]
      rw [hr1]
      exact reveal_of_ended _ c rfl
    · have halln : has_discovered_all_non_bombs_cells
          (discover_cell (revealFuel g) g c) = false := by
        rwa [Bool.not_eq_true] at hall
      have hr1 : reveal g c = discover_cell (revealFuel g) g c := by
        rw [hrev, if_neg (by simp [halln])]
      rw [hr1]
      by_cases hdend : (discover_cell (revealFuel g) g c).game_ended = true
      · exact reveal_of_ended _ c hdend
      · have hdf : (discover_cell (revealFuel g) g c).game_ended = false := by
          rwa [Bool.not_eq_true] at hdend
        by_cases hflag : g.grid c = -2
        · have hdg : discover_cell (revealFuel g) g c = g :=
            discover_cell_flagged _ g c hflag
          rw [hdg]
          rw [hdg] at hr1
          exact hr1
        · have hF : revealFuel (discover_cell (revealFuel g) g c) = revealFuel g := by
            unfold revealFuel
            rw [discover_cell_height, discover_cell_width]
          have hfix := discover_cell_fixpoint g c
            (2 * g.grid_height * g.grid_width + 1) hflag hdf
          have hd2 : discover_cell (revealFuel (discover_cell (revealFuel g) g c))
              (discover_cell (revealFuel g) g c) c =
              discover_cell (revealFuel g) g c := by
            rw [hF]
            exact hfix
          rw [reveal_of_not_ended _ c hdf, hd2, if_neg (by simp [halln])]

theorem mem_neighbours_ne {H W : Nat} {c nb : Cell}
    (h : nb ∈ neighbours H W c) : nb ≠ c := by
  unfold neighbours at h
  rcases List.mem_map.1 h with ⟨p, hp, hpe⟩
  rcases List.mem_filter.1 hp with ⟨hcand, hdec⟩
  have hprop := of_decide_eq_true hdec
  subst hpe
  intro he
  have he1 : p.1.toNat = c.1 := congrArg Prod.fst he
  have he2 : p.2.toNat = c.2 := congrArg Prod.snd he
  obtain ⟨hp1, hp2, hp3, hp4⟩ := hprop
  simp only [neighbour_candidates, List.mem_cons, List.not_mem_nil, or_false]
    at hcand
  rcases hcand with h5 | h5 | h5 | h5 | h5 | h5 | h5 | h5 <;>
    (subst h5; simp only [] at he1 he2 hp1 hp2 hp3 hp4; omega)

/-- The win test is unaffected by the win-closing sweep: flagging hidden
bombs turns `-1` into `-2`, both negative. -/
theorem hasAll_congr (a b : Grid) (hH : a.grid_height = b.grid_height)
    (hW : a.grid_width = b.grid_width) (hn : a.bombs_nb = b.bombs_nb)
    (hg : ∀ x : Cell, x ∈ allCells b.grid_height b.grid_width →
      (a.grid x < 0 ↔ b.grid x < 0)) :
    has_discovered_all_non_bombs_cells a = has_discovered_all_non_bombs_cells b := by
  unfold has_discovered_all_non_bombs_cells
  rw [hH, hW, hn]
  rw [decide_eq_decide]
  have hc : (allCells b.grid_height b.grid_width).countP
      (fun x => decide (a.grid x < 0)) =
      (allCells b.grid_height b.grid_width).countP
      (fun x => decide (b.grid x < 0)) := by
    apply List.countP_congr
    intro x hx
    simp only [decide_eq_true_eq]
    exact hg x hx
  rw [hc]

/-- C10.  In every reachable non-terminal state every mine is hidden or
flagged; consequently, whenever the hidden-or-flagged count equals
`mine_count`, those cells are exactly the mines (so no non-mine cell is
flagged at the moment of winning). -/
theorem C10_mines_stay_covered (g : Grid) (h : Reachable g)
    (hgend : g.game_ended = false) :
    (∀ b ∈ g.bombs, g.grid b = -1 ∨ g.grid b = -2) ∧
    (hfCount g = g.bombs_nb →
      (∀ x : Cell, x.1 < g.grid_height → x.2 < g.grid_width →
        ((g.grid x = -1 ∨ g.grid x = -2) ↔ x ∈ g.bombs)) ∧
      (∀ x : Cell, x.1 < g.grid_height → x.2 < g.grid_width →
        x ∉ g.bombs → g.grid x ≠ -2)) := by
  obtain ⟨⟨hnd, hlen, hbd⟩, hgv⟩ := reachable_invariant h
  obtain ⟨hgv1, hgv2⟩ := hgv hgend
  refine ⟨hgv2, ?_⟩
  intro hcount
  have hiff := hf_cells_eq_bombs g hnd hlen hbd hgv2 hcount
  refine ⟨hiff, ?_⟩
  intro x hx1 hx2 hxb hx2f
  exact hxb ((hiff x hx1 hx2).1 (Or.inr hx2f))

theorem C10_witness :
    (∀ b ∈ (Grid.init 1 1 1 [(0,0)]).bombs,
      (Grid.init 1 1 1 [(0,0)]).grid b = -1 ∨
      (Grid.init 1 1 1 [(0,0)]).grid b = -2) ∧
    ((∀ x : Cell, x.1 < (Grid.init 1 1 1 [(0,0)]).grid_height →
        x.2 < (Grid.init 1 1 1 [(0,0)]).grid_width →
        (((Grid.init 1 1 1 [(0,0)]).grid x = -1 ∨
          (Grid.init 1 1 1 [(0,0)]).grid x = -2) ↔
          x ∈ (Grid.init 1 1 1 [(0,0)]).bombs)) ∧
      (∀ x : Cell, x.1 < (Grid.init 1 1 1 [(0,0)]).grid_height →
        x.2 < (Grid.init 1 1 1 [(0,0)]).grid_width →
        x ∉ (Grid.init 1 1 1 [(0,0)]).bombs →
        (Grid.init 1 1 1 [(0,0)]).grid x ≠ -2)) :=
  ⟨(C10_mines_stay_covered (Grid.init 1 1 1 [(0,0)])
      (Reachable.base 1 1 1 [(0,0)] (by decide) rfl (by decide) (by decide)) rfl).1,
   (C10_mines_stay_covered (Grid.init 1 1 1 [(0,0)])
      (Reachable.base 1 1 1 [(0,0)] (by decide) rfl (by decide) (by decide)) rfl).2
     (by decide)⟩

/-- C2.  A non-losing reveal after which the hidden-or-flagged count equals
`mine_count` wins the round: the outcome becomes `Won`, every mine ends
flagged (hidden mines are auto-flagged by `flag_non_flagged_bombs`, flagged
mines stay), and every flagged non-mine cell is transitioned to `-3` — the
last clause holds vacuously, because by the reachability invariant the
hidden-or-flagged cells at that moment are exactly the mines, so no flagged
non-mine exists (the win path performs no such conversion). -/
theorem C2_win_closure (g : Grid) (c : Cell) (h : Reachable g)
    (hgend : g.game_ended = false)
    (hdf : (discover_cell (revealFuel g) g c).game_ended = false)
    (hcount : hfCount (discover_cell (revealFuel g) g c) = g.bombs_nb) :
    outcome (reveal g c) = Outcome.Won ∧
    (∀ b ∈ g.bombs, (reveal g c).grid b = -2) ∧
    (∀ x : Cell, x.1 < g.grid_height → x.2 < g.grid_width → x ∉ g.bombs →
      (discover_cell (revealFuel g) g c).grid x = -2 →
      (reveal g c).grid x = -3) := by
  obtain ⟨⟨hnd, hlen, hbd⟩, hgv⟩ := reachable_invariant h
  obtain ⟨hgv1, hgv2⟩ := hgv hgend
  have hnl := discover_cell_nonlosing (revealFuel g) g c hdf
  have hdneg : ∀ x : Cell,
      x.1 < (discover_cell (revealFuel g) g c).grid_height →
      x.2 < (discover_cell (revealFuel g) g c).grid_width →
      (discover_cell (revealFuel g) g c).grid x < 0 →
      (discover_cell (revealFuel g) g c).grid x = -1 ∨
      (discover_cell (revealFuel g) g c).grid x = -2 := by
    intro x hx1 hx2 hneg
    rw [discover_cell_height] at hx1
    rw [discover_cell_width] at hx2
    rcases hnl x with h1 | ⟨h1, h2, h3⟩
    · rw [h1] at hneg ⊢
      exact hgv1 x hx1 hx2 hneg
    · exfalso
      have := bomb_value_nonneg g.grid_height g.grid_width g.bombs x
      rw [h1] at hneg
      omega
  have hdmines : ∀ b ∈ g.bombs,
      (discover_cell (revealFuel g) g c).grid b = -1 ∨
      (discover_cell (revealFuel g) g c).grid b = -2 := by
    intro b hb
    rcases hnl b with h1 | ⟨h1, h2, h3⟩
    · rw [h1]
      exact hgv2 b hb
    · exact absurd (bomb_value_of_mem hb) h2
  have hcount2 : hfCount (discover_cell (revealFuel g) g c) =
      (discover_cell (revealFuel g) g c).bombs_nb := by
    rw [discover_cell_bombs_nb]
    exact hcount
  have hall : has_discovered_all_non_bombs_cells
      (discover_cell (revealFuel g) g c) = true :=
    (hasAll_iff_hfCount _ hdneg).2 hcount2
  have hrw : reveal g c = { flag_non_flagged_bombs
      (discover_cell (revealFuel g) g c) with game_ended := true } := by
    rw [reveal_of_not_ended g c hgend, if_pos hall]
  refine ⟨?_, ?_, ?_⟩
  · rw [hrw, outcome, if_pos rfl]
    have hgrid : ∀ x : Cell, x ∈ allCells
        (discover_cell (revealFuel g) g c).grid_height
        (discover_cell (revealFuel g) g c).grid_width →
        (({ flag_non_flagged_bombs (discover_cell (revealFuel g) g c) with
            game_ended := true } : Grid).grid x < 0 ↔
          (discover_cell (revealFuel g) g c).grid x < 0) := by
      intro x _
      show (flag_non_flagged_bombs _).grid x < 0 ↔ _
      rw [flag_non_grid]
      split_ifs with hcond
      · have := hcond.2
        constructor <;> intro <;> omega
      · exact Iff.rfl
    have hwall := (hasAll_congr
      ({ flag_non_flagged_bombs (discover_cell (revealFuel g) g c) with
        game_ended := true } : Grid)
      (discover_cell (revealFuel g) g c) rfl rfl rfl hgrid).trans hall
    rw [if_pos hwall]
  · intro b hb
    rw [hrw]
    show (flag_non_flagged_bombs _).grid b = -2
    rw [flag_non_grid]
    have hbd2 : b ∈ (discover_cell (revealFuel g) g c).bombs := by
      rw [discover_cell_bombs]
      exact hb
    rcases hdmines b hb with h1 | h1
    · rw [if_pos ⟨hbd2, h1⟩]
    · rw [if_neg ?_]
      · exact h1
      · intro hcond
        rw [h1] at hcond
        omega
  · intro x hx1 hx2 hxb hxf
    exfalso
    have hiff := hf_cells_eq_bombs (discover_cell (revealFuel g) g c)
      (by rw [discover_cell_bombs]; exact hnd)
      (by rw [discover_cell_bombs, discover_cell_bombs_nb]; exact hlen)
      (by
        rw [discover_cell_bombs]
        intro b hb
        rw [discover_cell_height, discover_cell_width]
        exact hbd b hb)
      (by rw [discover_cell_bombs]; exact hdmines) hcount2
    have hmem : x ∈ (discover_cell (revealFuel g) g c).bombs :=
      (hiff x (by rw [discover_cell_height]; exact hx1)
        (by rw [discover_cell_width]; exact hx2)).1 (Or.inr hxf)
    rw [discover_cell_bombs] at hmem
    exact hxb hmem

theorem C2_witness :
    outcome (reveal (Grid.init 1 2 1 [(0,0)]) (0,1)) = Outcome.Won ∧
    (∀ b ∈ (Grid.init 1 2 1 [(0,0)]).bombs,
      (reveal (Grid.init 1 2 1 [(0,0)]) (0,1)).grid b = -2) ∧
    (∀ x : Cell, x.1 < (Grid.init 1 2 1 [(0,0)]).grid_height →
      x.2 < (Grid.init 1 2 1 [(0,0)]).grid_width →
      x ∉ (Grid.init 1 2 1 [(0,0)]).bombs →
      (discover_cell (revealFuel (Grid.init 1 2 1 [(0,0)]))
        (Grid.init 1 2 1 [(0,0)]) (0,1)).grid x = -2 →
      (reveal (Grid.init 1 2 1 [(0,0)]) (0,1)).grid x = -3) :=
  C2_win_closure (Grid.init 1 2 1 [(0,0)]) (0,1)
    (Reachable.base 1 2 1 [(0,0)] (by decide) rfl (by decide) (by decide)) rfl
    (by decide) (by decide)

/-- C4.  Revealing a non-mine, non-flagged in-bounds cell with zero adjacent
mines leaves every one of its neighbours non-hidden, while neighbours that
were already revealed keep their value and flagged neighbours stay flagged
(the cascade never auto-reveals a flag). -/
theorem C4_zero_cascade (g : Grid) (c : Cell)
    (hgend : g.game_ended = false)
    (hH : c.1 < g.grid_height) (hW : c.2 < g.grid_width)
    (hbc : c ∉ g.bombs) (hflag : g.grid c ≠ -2)
    (h0 : check_for_bombs g c = 0) :
    (∀ nb ∈ get_neighbours g c, (reveal g c).grid nb ≠ -1) ∧
    (∀ nb ∈ get_neighbours g c, 0 ≤ g.grid nb →
      (reveal g c).grid nb = g.grid nb) ∧
    (∀ nb ∈ get_neighbours g c, g.grid nb = -2 →
      (reveal g c).grid nb = -2) := by
  have hdend : (discover_cell (revealFuel g) g c).game_ended = false := by
    rw [discover_cell_ended_of_not_bomb (revealFuel g) g c hbc]
    exact hgend
  have hzn : ∀ nb ∈ get_neighbours g c,
      (discover_cell (revealFuel g) g c).grid nb ≠ -1 :=
    discover_cell_zero_neighbours (2 * g.grid_height * g.grid_width)
      g c hflag h0 hdend
  have hnl := discover_cell_nonlosing (revealFuel g) g c hdend
  have hd2 : ∀ nb ∈ get_neighbours g c, 0 ≤ g.grid nb →
      (discover_cell (revealFuel g) g c).grid nb = g.grid nb := by
    intro nb hnb hge
    rcases hnl nb with h1 | ⟨h1, h2, h3⟩
    · exact h1
    · exfalso
      rcases h3 with h3 | h3
      · omega
      · exact mem_neighbours_ne hnb h3
  have hd3 : ∀ nb ∈ get_neighbours g c, g.grid nb = -2 →
      (discover_cell (revealFuel g) g c).grid nb = -2 := by
    intro nb hnb hm2
    rcases hnl nb with h1 | ⟨h1, h2, h3⟩
    · rw [h1]; exact hm2
    · exfalso
      rcases h3 with h3 | h3
      · omega
      · exact hflag (h3 ▸ hm2)
  rw [reveal_of_not_ended g c hgend]
  by_cases hall : has_discovered_all_non_bombs_cells
      (discover_cell (revealFuel g) g c) = true
  · rw [if_pos hall]
    refine ⟨?_, ?_, ?_⟩ <;> intro nb hnb
    · show (flag_non_flagged_bombs _).grid nb ≠ -1
      rw [flag_non_grid]
      split_ifs with hcond
      · norm_num
      · exact hzn nb hnb
    · intro hge
      show (flag_non_flagged_bombs _).grid nb = g.grid nb
      rw [flag_non_grid, if_neg ?_]
      · exact hd2 nb hnb hge
      · intro hcond
        have hcv := hcond.2
        rw [hd2 nb hnb hge] at hcv
        omega
    · intro hm2
      show (flag_non_flagged_bombs _).grid nb = -2
      rw [flag_non_grid, if_neg ?_]
      · exact hd3 nb hnb hm2
      · intro hcond
        have hcv := hcond.2
        rw [hd3 nb hnb hm2] at hcv
        omega
  · rw [if_neg (by simp [hall])]
    exact ⟨hzn, hd2, hd3⟩

theorem C4_witness :
    (∀ nb ∈ get_neighbours (Grid.init 2 2 0 []) (0,0),
      (reveal (Grid.init 2 2 0 []) (0,0)).grid nb ≠ -1) ∧
    (∀ nb ∈ get_neighbours (Grid.init 2 2 0 []) (0,0),
      0 ≤ (Grid.init 2 2 0 []).grid nb →
      (reveal (Grid.init 2 2 0 []) (0,0)).grid nb = (Grid.init 2 2 0 []).grid nb) ∧
    (∀ nb ∈ get_neighbours (Grid.init 2 2 0 []) (0,0),
      (Grid.init 2 2 0 []).grid nb = -2 →
      (reveal (Grid.init 2 2 0 []) (0,0)).grid nb = -2) :=
  C4_zero_cascade (Grid.init 2 2 0 []) (0,0) rfl (by decide) (by decide)
    (by decide) (by decide) (by decide)

end Minesweeper
